import Mathlib

/-!
Verification of the MT4 historical-data acquisition pipeline.

This file gives a shallow embedding of the parts of the repository that the
specification's claims are about:

* `scripts/historical/fetch_launcher2.py` — `needs_update`, `verify_timeframe`,
  `verify_new_data`, `save_data` (the second, shadowing definition at line 565),
  and the response-processing part of `fetch_symbol_data`;
* `mt4_connector/base_connector.py` — the `send` retry loop and the `receive`
  polling loop;
* `mt4_connector/historical_data_handler.py` — the `_process_message` decode
  step and the concatenated-frame fix of `_fetch_single_timeframe`;
* `scripts/data_validation/validate_csv_data.py` — `analyze_file`.

Modelling conventions: Python `datetime` values are a record of calendar
fields together with a proleptic-Gregorian conversion to absolute seconds
(`dtSecs`), so datetime comparison, subtraction and `weekday()` are exact;
prices and percentages are rationals rather than IEEE floats; pandas frames
indexed by time are lists of `Candle` records in index order; the JSON decoder
(`json.loads`) and the Python expression evaluator (`eval`) are external
collaborators and appear as opaque function parameters; file I/O is modelled
as explicit state passing of the parsed series (`none` = file absent).
-/

/-- Gregorian leap-year test, as used by Python's `datetime`. -/
def isLeap (y : Nat) : Bool :=
  (y % 4 == 0 && y % 100 != 0) || y % 400 == 0

/-- Days in the months preceding month `m` (1-based) of a year with leap flag `leap`. -/
def daysBeforeMonth (leap : Bool) (m : Nat) : Nat :=
  let base :=
    match m with
    | 1 => 0 | 2 => 31 | 3 => 59 | 4 => 90 | 5 => 120 | 6 => 151
    | 7 => 181 | 8 => 212 | 9 => 243 | 10 => 273 | 11 => 304 | _ => 334
  if leap && m ≥ 3 then base + 1 else base

/-- Days from 0001-01-01 (proleptic Gregorian, day 0) to the given civil date. -/
def daysFromCivil (y m d : Nat) : Nat :=
  365 * (y - 1) + (y - 1) / 4 - (y - 1) / 100 + (y - 1) / 400
    + daysBeforeMonth (isLeap y) m + (d - 1)

/-- A Python `datetime` value: calendar fields down to seconds.  Timestamps
parsed with the `%Y.%m.%d %H:%M` format always carry `second = 0`; the
current wall-clock time (`datetime.now()`) may carry any second value. -/
structure DateTime where
  year : Nat
  month : Nat
  day : Nat
  hour : Nat
  minute : Nat
  second : Nat
deriving DecidableEq, Repr

/-- Absolute day number of a datetime's date (0001-01-01 = day 0). -/
def dtDays (t : DateTime) : Nat :=
  daysFromCivil t.year t.month t.day

/-- Absolute time in seconds; Python datetime comparison and subtraction are
exactly comparison and subtraction of this value. -/
def dtSecs (t : DateTime) : Nat :=
  dtDays t * 86400 + t.hour * 3600 + t.minute * 60 + t.second

/-- Python's `date.weekday()`: Monday = 0 … Sunday = 6.  Day 0 of the
proleptic Gregorian calendar (0001-01-01) is a Monday. -/
def weekday (t : DateTime) : Nat :=
  dtDays t % 7

/-- Zero-padded two-digit rendering, as in `strftime` fields `%m %d %H %M`. -/
def pad2 (n : Nat) : String :=
  if n < 10 then "0" ++ toString n else toString n

/-- Zero-padded four-digit rendering, as in `strftime` field `%Y`. -/
def pad4 (n : Nat) : String :=
  if n < 10 then "000" ++ toString n
  else if n < 100 then "00" ++ toString n
  else if n < 1000 then "0" ++ toString n
  else toString n

/-- The canonical timestamp text form `YYYY.MM.DD HH:MM` produced by
`strftime("%Y.%m.%d %H:%M")` throughout the pipeline. -/
def fmtDT (t : DateTime) : String :=
  pad4 t.year ++ "." ++ pad2 t.month ++ "." ++ pad2 t.day ++ " "
    ++ pad2 t.hour ++ ":" ++ pad2 t.minute

/-- One OHLCV row of a persisted series / validated payload.  `open` is a Lean
keyword, hence the field name `open_`. -/
structure Candle where
  time : DateTime
  open_ : Rat
  high : Rat
  low : Rat
  close : Rat
  tick_volume : Rat
  spread : Rat
  real_volume : Rat
deriving DecidableEq, Repr

/-- A payload row as it arrives from the decoded response: the `time` field is
`none` when `pd.to_datetime(..., errors := coerce)` fails on the row, in which
case `save_data` drops the row (`dropna(subset=[time])`). -/
structure RawCandle where
  time : Option DateTime
  open_ : Rat
  high : Rat
  low : Rat
  close : Rat
  tick_volume : Rat
  spread : Rat
  real_volume : Rat
deriving DecidableEq, Repr

/-- The timestamp key of a row, as pandas keys the frame by its datetime index. -/
def key (c : Candle) : Nat := dtSecs c.time

/-- Date-parsing-and-dropping step of `save_data` (lines 588-589): rows whose
time fails to parse are dropped, the others keep payload order. -/
def parseRows (l : List RawCandle) : List Candle :=
  l.filterMap fun rc =>
    rc.time.map fun t =>
      ⟨t, rc.open_, rc.high, rc.low, rc.close, rc.tick_volume, rc.spread, rc.real_volume⟩

/-- The first defined of two optional rows; used to state that new rows win
timestamp ties over old ones. -/
def firstSome (a b : Option Candle) : Option Candle :=
  match a with
  | some v => some v
  | none => b

/-- Last row of the list carrying the given timestamp key, mirroring how
`keep = last` resolves a duplicated pandas index. -/
def lookupLast (t : Nat) : List Candle → Option Candle
  | [] => none
  | c :: cs =>
    match lookupLast t cs with
    | some x => some x
    | none => if key c = t then some c else none

/-- The pandas duplicate filter `combined[~combined.index.duplicated(keep = last)]`:
keep a row iff no later row has the same timestamp key. -/
def dedupKeepLast : List Candle → List Candle
  | [] => []
  | c :: cs => if cs.any (fun c2 => key c2 = key c) then dedupKeepLast cs
               else c :: dedupKeepLast cs

/-- The pandas `sort_index()` on a time-keyed frame. -/
def sortRows (l : List Candle) : List Candle :=
  l.insertionSort (fun a b => key a ≤ key b)

/-- The merge kernel of `save_data` (lines 637-649): concatenate existing and
new rows, drop duplicated timestamps keeping the last occurrence, sort by
timestamp. -/
def mergeRows (old new : List Candle) : List Candle :=
  sortRows (dedupKeepLast (old ++ new))

/-- Rows strictly ascending by timestamp — the SeriesFile invariant. -/
def strictSorted (l : List Candle) : Prop :=
  List.Sorted (fun a b => key a < key b) l

instance : DecidablePred strictSorted := fun l =>
  inferInstanceAs (Decidable (List.Sorted _ l))

/-- One serialized CSV row, in the canonical timestamp text form (the index is
formatted with `strftime("%Y.%m.%d %H:%M")` before `to_csv`). -/
def serializeRow (c : Candle) : String :=
  fmtDT c.time ++ "," ++ toString c.open_ ++ "," ++ toString c.high ++ ","
    ++ toString c.low ++ "," ++ toString c.close ++ "," ++ toString c.tick_volume
    ++ "," ++ toString c.spread ++ "," ++ toString c.real_volume

/-- The series file content written by `to_csv(header = True)`. -/
def serializeSeries (l : List Candle) : List String :=
  "time,open,high,low,close,tick_volume,spread,real_volume" :: l.map serializeRow

/-- The timeframe catalog of the scripts (`timeframes.json` / the literals in
`fetch_launcher2.py`). -/
inductive TF
  | M1 | M5 | M15 | M30 | H1 | H4 | D1 | W1 | MN1
deriving DecidableEq, Repr

/-- The timeframe string as it appears in configuration and messages. -/
def tfName : TF → String
  | .M1 => "M1" | .M5 => "M5" | .M15 => "M15" | .M30 => "M30"
  | .H1 => "H1" | .H4 => "H4" | .D1 => "D1" | .W1 => "W1" | .MN1 => "MN1"

/-- The true sampling period of a timeframe, in minutes (what the claims call
the timeframe's own period). -/
def tfPeriodMinutes : TF → Nat
  | .M1 => 1 | .M5 => 5 | .M15 => 15 | .M30 => 30
  | .H1 => 60 | .H4 => 240 | .D1 => 1440 | .W1 => 10080 | .MN1 => 43200

/-- The `tf_map` dictionary of `verify_timeframe` (lines 245-255), minutes to
timeframe string. -/
def tfMap (n : Nat) : Option String :=
  match n with
  | 1 => some "M1" | 5 => some "M5" | 15 => some "M15" | 30 => some "M30"
  | 60 => some "H1" | 240 => some "H4" | 1440 => some "D1"
  | 10080 => some "W1" | 43200 => some "MN1"
  | _ => none

/-- Expected minutes for the requested timeframe in `verify_timeframe`
(line 264): `int(requested_tf[1:])` when the name starts with M, else a
dictionary lookup.  For MN1 the name starts with M, so `int("N1")` raises
`ValueError`; `none` models that exception, which the handler turns into
"assume it is correct". -/
def expectedMinutesOf : TF → Option Nat
  | .M1 => some 1 | .M5 => some 5 | .M15 => some 15 | .M30 => some 30
  | .H1 => some 60 | .H4 => some 240 | .D1 => some 1440 | .W1 => some 10080
  | .MN1 => none

/-- The `Counter(diffs).most_common(1)[0][0]` of `verify_timeframe`: the value
with the greatest multiplicity, ties resolved in favour of the value first
encountered (Counter iterates in insertion order and `most_common` is stable). -/
def mode : List Nat → Nat
  | [] => 0
  | x :: xs =>
    (x :: xs).foldl
      (fun best y => if (x :: xs).count y > (x :: xs).count best then y else best) x

/-- Pairwise deltas of consecutive timestamps in minutes:
`(times[i+1] - times[i]).total_seconds() // 60` (line 236). -/
def consecDiffs : List Nat → List Nat
  | a :: b :: t => (b - a) / 60 :: consecDiffs (b :: t)
  | _ => []

/-- Translation of `verify_timeframe` (lines 213-276).  A row whose time
string does not parse makes `strptime` raise, and the exception handler
returns `(True, requested)`; that path is the `any (time = none)` branch. -/
def verify_timeframe (data : List RawCandle) (requested : TF) : Bool × String :=
  if data.length < 2 then (true, tfName requested)
  else if data.any (fun c => c.time = none) then (true, tfName requested)
  else
    let times := ((parseRows data).map key).insertionSort (· ≤ ·)
    match consecDiffs times with
    | [] => (true, tfName requested)
    | d :: ds =>
      let mc := mode (d :: ds)
      let detected := (tfMap mc).getD ("M" ++ toString mc)
      if detected = "D1" ∧ (mc = 1440 ∨ mc = 1441 ∨ mc = 1439) then (true, "D1")
      else
        match expectedMinutesOf requested with
        | none => (true, tfName requested)
        | some em =>
          if ((mc : Int) - (em : Int)).natAbs ≤ 1 then (true, tfName requested)
          else (false, detected)

/-- Expected interval used by `verify_new_data` (line 526):
`int(timeframe[1:]) if timeframe.startswith("M") else 1`.  MN1 again raises
`ValueError` (`none`), which the exception handler turns into "assume OK". -/
def verifyInterval : TF → Option Nat
  | .M1 => some 1 | .M5 => some 5 | .M15 => some 15 | .M30 => some 30
  | .MN1 => none
  | _ => some 1

/-- Translation of `verify_new_data` (lines 493-563), dropping the logging.
`new` is the parsed payload in payload order, `existing` the persisted rows
sorted ascending (the caller sorts before verifying).  The closes come out of
pandas as numpy floats, so dividing by a zero last close yields `inf`
(differing closes) or `nan` (both zero) without raising: `inf` fires the
50-percent check and rejects, while `nan` fails every percentage comparison
and falls through to the time-gap check alone.  For MN1 the
`expected_interval` computation (line 526) raises `ValueError` before any
comparison, and the handler then assumes the data is OK (`none` branch). -/
def verify_new_data (tf : TF) (new existing : List Candle) : Bool :=
  if new = [] then false
  else
    match existing.getLast?, new.head? with
    | none, _ => true
    | some _, none => true
    | some lastEx, some firstNew =>
      let priceDiff := firstNew.close - lastEx.close
      let pct := |priceDiff / lastEx.close * 100|
      let gapMin : Rat := (((dtSecs firstNew.time : Int) - (dtSecs lastEx.time : Int) : Int) : Rat) / 60
      match verifyInterval tf with
      | none => true
      | some em =>
        if lastEx.close = 0 then
          if priceDiff ≠ 0 then false
          else if gapMin > (em : Rat) * 3 then false
          else true
        else if pct > 50 then false
        else if pct < 1 / 1000 ∧ 0 < |priceDiff| then false
        else if gapMin > (em : Rat) * 3 then false
        else true

/-- Does the `read_csv(dtype := spread int)` re-read of the persisted file
succeed?  pandas writes the spread column in integer text exactly when every
stored spread is an integer; one non-integer spread (which a merged payload
can introduce, since nothing validates spreads) turns the whole column
float-formatted, and the dtype-int read then raises. -/
def spreadReadOK (rows : List Candle) : Bool :=
  rows.all fun c => c.spread.den = 1

/-- Translation of the second (shadowing) `save_data` of `fetch_launcher2.py`
(lines 565-679).  The persisted file is modelled as its parsed rows (`none` =
file absent); the function returns the success flag and the state of the file
after the call (unchanged on every failure path).  When re-reading the
existing file raises (lines 606-626, captured by `spreadReadOK`), the
`except` fallback of lines 639-641 silently discards every existing row and
skips `verify_new_data`, continuing with the payload alone and still
returning success. -/
def save_data (tf : TF) (st : Option (List Candle)) (payload : List RawCandle) :
    Bool × Option (List Candle) :=
  if payload = [] then (false, st)
  else
    let new := parseRows payload
    if new = [] then (false, st)
    else
      match st with
      | none => (true, some (mergeRows [] new))
      | some ex =>
        if spreadReadOK ex = true then
          let exSorted := sortRows ex
          if verify_new_data tf new exSorted = false then (false, st)
          else (true, some (mergeRows exSorted new))
        else
          (true, some (mergeRows [] new))

/-- State of the persisted file after one `save_data` call. -/
def save_data_state (tf : TF) (st : Option (List Candle)) (p : List RawCandle) :
    Option (List Candle) :=
  (save_data tf st p).2

/-- Most recent timestamp among the persisted rows (`get_last_timestamp`,
which takes the maximum of the parsed timestamp texts). -/
def lastTimestamp (rows : List Candle) : Option DateTime :=
  rows.foldl
    (fun acc c =>
      match acc with
      | none => some c.time
      | some m => if dtSecs c.time > dtSecs m then some c.time else some m)
    none

/-- Interval used by the intraday branch of `needs_update` (line 196):
`int(timeframe[1:]) if timeframe[0] == "M" else 5`.  For every non-M
timeframe this falls back to 5 minutes; for MN1 `int("N1")` raises and the
outer handler makes `needs_update` return True (`none` here). -/
def mIntervalFallback : TF → Option Nat
  | .M1 => some 1 | .M5 => some 5 | .M15 => some 15 | .M30 => some 30
  | .MN1 => none
  | _ => some 5

/-- Last trading day as a day number (lines 169-177): Friday on weekends,
yesterday before 21:55 on a trading day (three days back on Monday), today
after 21:55. -/
def lastTradingDayNum (now : DateTime) : Nat :=
  let today := dtDays now
  let wd := today % 7
  if wd ≥ 5 then today - (wd - 4)
  else if now.hour < 21 ∨ (now.hour = 21 ∧ now.minute < 55) then
    today - (if wd > 0 then 1 else 3)
  else today

/-- Translation of `needs_update` (lines 135-211), with the reason string
dropped.  The state is the parsed file (`none` = absent). -/
def needs_update (tf : TF) (st : Option (List Candle)) (now : DateTime) : Bool :=
  match st with
  | none => true
  | some rows =>
    match lastTimestamp rows with
    | none => true
    | some lastDT =>
      let lastDay := dtDays lastDT
      let today := dtDays now
      if lastDay > today then false
      else
        let ltd := lastTradingDayNum now
        match tf with
        | .D1 =>
          if lastDay ≥ ltd then false
          else if today % 7 ≥ 5 ∧ lastDay % 7 = 4 then false
          else true
        | _ =>
          if lastDay ≥ ltd then
            match mIntervalFallback tf with
            | none => true
            | some m =>
              let ageMin : Rat := (((dtSecs now : Int) - (dtSecs lastDT : Int) : Int) : Rat) / 60
              if today % 7 < 5 ∧ (now.hour < 21 ∨ (now.hour = 21 ∧ now.minute < 55)) then
                if ageMin > (m : Rat) * 3 then true else false
              else false
          else true

/-- The single-quote character, written by code point to keep literals plain. -/
def squote : Char := Char.ofNat 39

/-- The double-quote character. -/
def dquote : Char := Char.ofNat 34

/-- Opening curly bracket. -/
def lbrace : Char := Char.ofNat 123

/-- Closing curly bracket. -/
def rbrace : Char := Char.ofNat 125

/-- The two-character pattern marking two concatenated JSON frames: a closing
bracket immediately followed by an opening one. -/
def frameBreak : List Char := [rbrace, lbrace]

/-- Does the text begin with the given pattern? -/
def startsWith : List Char → List Char → Bool
  | [], _ => true
  | _ :: _, [] => false
  | p :: ps, c :: cs => p == c && startsWith ps cs

/-- Does the pattern occur anywhere in the text? -/
def containsSub (pat : List Char) : List Char → Bool
  | [] => startsWith pat []
  | c :: cs => startsWith pat (c :: cs) || containsSub pat cs

/-- Python's `str.replace`, replacing every non-overlapping occurrence of
`pat` scanning left to right; structural recursion on a fuel counter so the
function reduces inside the kernel.  Each step consumes at least one character
and one unit of fuel, so `fuel = s.length` never runs out. -/
def replaceAllFuel (pat rep : List Char) : Nat → List Char → List Char
  | 0, s => s
  | _ + 1, [] => []
  | fuel + 1, c :: cs =>
    if pat ≠ [] ∧ startsWith pat (c :: cs) = true then
      rep ++ replaceAllFuel pat rep fuel (cs.drop (pat.length - 1))
    else
      c :: replaceAllFuel pat rep fuel cs

/-- Python's `str.replace`. -/
def replaceAll (pat rep s : List Char) : List Char :=
  replaceAllFuel pat rep s.length s

/-- The quote normalization `response.replace(chr(39), chr(34))`. -/
def fixQuotes (s : List Char) : List Char :=
  s.map fun c => if c == squote then dquote else c

/-- The sanitation pass of `fetch_symbol_data` (line 460) and
`_fetch_single_timeframe` (line 113): normalize quotes, then the boolean
literals `False` and `True`. -/
def sanitize (s : List Char) : List Char :=
  replaceAll [Char.ofNat 84, Char.ofNat 114, Char.ofNat 117, Char.ofNat 101]
    [Char.ofNat 116, Char.ofNat 114, Char.ofNat 117, Char.ofNat 101]
    (replaceAll [Char.ofNat 70, Char.ofNat 97, Char.ofNat 108, Char.ofNat 115, Char.ofNat 101]
      [Char.ofNat 102, Char.ofNat 97, Char.ofNat 108, Char.ofNat 115, Char.ofNat 101]
      (fixQuotes s))

/-- Text before the first occurrence of the frame-break pattern:
`response.split(pat)[0]`. -/
def takeUntilBreak : List Char → List Char
  | [] => []
  | c :: cs => if startsWith frameBreak (c :: cs) then [] else c :: takeUntilBreak cs

/-- The malformed-frame fix (lines 461-462): when the text contains the
frame-break pattern, keep only the part before its first occurrence and append
a closing bracket. -/
def fixFrames (s : List Char) : List Char :=
  if containsSub frameBreak s then takeUntilBreak s ++ [rbrace] else s

/-- A decoded response message: the `_response == "NOT_AVAILABLE"` flag and
the `_data` candle list (defaulting to empty when absent). -/
structure Msg where
  notAvailable : Bool
  data : List RawCandle

/-- Translation of the response-processing part of `fetch_symbol_data`
(lines 430-488).  `dec` is the external safe structured-data decoder
(`json.loads`); `none` from it models a parse exception.  `sendOk` is the
result of `send_historical_data` and `resp` the value of `receive` (`none` =
timeout).  The result is the returned flag and the file state after the call. -/
def fetch_symbol_data (dec : List Char → Option Msg) (tf : TF) (now : DateTime)
    (sendOk : Bool) (st : Option (List Candle)) (resp : Option (List Char)) :
    Bool × Option (List Candle) :=
  if needs_update tf st now = false then (true, st)
  else if sendOk = false then (false, st)
  else
    match resp with
    | none => (false, st)
    | some r =>
      match dec (fixFrames (sanitize r)) with
      | none => (false, st)
      | some msg =>
        if msg.notAvailable then (false, st)
        else if msg.data = [] then (false, st)
        else if (verify_timeframe msg.data tf).1 = false then (false, st)
        else save_data tf st msg.data

/-- The decode step of `MT4HistoricalDataHandler._process_message` (line 176):
the raw remote message text is passed to the Python expression evaluator
`eval`, an external collaborator modelled as an opaque function — with no
sanitation pass and no structured-data decoder in between. -/
def processMessageParse (pyEval : List Char → Option Msg) (msg : List Char) : Option Msg :=
  pyEval msg

/-- Formalization of claim C5: every processing path decodes a remote message
by the sanitation pass followed by the safe structured-data decoder — that is,
the result of `_process_message`'s decode step would have to agree with the
sanitize-then-decode pipeline whatever the two external decoders are. -/
def sanitizedDecodeClaim : Prop :=
  ∀ (pyEval jsonDec : List Char → Option Msg) (msg : List Char),
    processMessageParse pyEval msg = jsonDec (fixFrames (sanitize msg))

/-- Outcome of one `push_sock.send_string` attempt: success, the transient
`EAGAIN` error, or any other (critical) `ZMQError`. -/
inductive SendOutcome
  | ok | eagain | fatal
deriving DecidableEq, Repr

/-- The channel reconnection loop `_reconnect_socket` (base_connector.py,
lines 398-461), run synchronously by `_handle_disconnection`.  `recOK j`
tells whether the j-th reopen attempt succeeds.  Returns the success flag and
the number of `retry_delay` sleeps: after a failed attempt the loop sleeps
only while further attempts remain (line 457), so at most
`max_retries - 1` sleeps happen. -/
def reconnectLoop (recOK : Nat → Bool) (maxR : Nat) (retry j : Nat) :
    Bool × Nat :=
  if _h : retry < maxR then
    if recOK j then (true, 0)
    else
      let r := reconnectLoop recOK maxR (retry + 1) (j + 1)
      (r.1, r.2 + (if retry + 1 < maxR then 1 else 0))
  else (false, 0)
termination_by maxR - retry
decreasing_by omega

/-- The retry loop of `MT4BaseConnector.send` (lines 481-499).  `outcomes k`
is the result of the k-th transmission attempt.  Returns (returned value,
number of transmission attempts, number of `retry_delay` sleeps, counting the
reconnection's own sleeps).  On `eagain` the counter is bumped and the loop
sleeps before re-testing the loop condition; on any other error
`_handle_disconnection` runs the synchronous channel reconnection — whose
sleeps the caller waits out — and the loop breaks. -/
def sendLoop (outcomes : Nat → SendOutcome) (recOK : Nat → Bool) (maxR : Nat)
    (retry k : Nat) : Bool × Nat × Nat :=
  if _h : retry ≤ maxR then
    match outcomes k with
    | .ok => (true, 1, 0)
    | .fatal => (false, 1, (reconnectLoop recOK maxR 0 0).2)
    | .eagain =>
      let r := sendLoop outcomes recOK maxR (retry + 1) (k + 1)
      (r.1, r.2.1 + 1, r.2.2 + 1)
  else (false, 0, 0)
termination_by maxR + 1 - retry
decreasing_by omega

/-- Translation of `MT4BaseConnector.send` (lines 463-499): immediately False
when the PUSH channel is not connected (no transmission attempted); otherwise
the bounded retry loop, which also does not run when `active` is already
False. -/
def send (connected active : Bool) (outcomes : Nat → SendOutcome)
    (recOK : Nat → Bool) (maxR : Nat) : Bool × Nat × Nat :=
  if connected = false then (false, 0, 0)
  else if active = false then (false, 0, 0)
  else sendLoop outcomes recOK maxR 0 0

/-- Did the elapsed time exceed the supplied timeout?  `none` (Python `None`,
the default) never triggers the timeout exit. -/
def timedOut (timeout : Option Rat) (elapsed : Rat) : Bool :=
  match timeout with
  | none => false
  | some T => decide (elapsed > T)

/-- Outcome of one iteration's poll/recv in `receive`: a queued message,
nothing ready, a transient `EAGAIN` error (logged, the loop continues), or a
critical `ZMQError` (lines 535-539: `_handle_disconnection` reconnects the
PULL channel synchronously — sleeping `retry_delay` between its failed
attempts — and the loop breaks, returning `None`). -/
inductive PollOutcome
  | msg (m : Nat) | empty | eagain | fatal
deriving DecidableEq, Repr

/-- The polling loop of `MT4BaseConnector.receive` (lines 520-543).  `clock i`
is the wall-clock value `time.time()` reads at the head of iteration `i`, and
`pollRes i` is the outcome of iteration `i`'s poll.  The outer `Option`
distinguishes "the call returned" (`some`: with a message or with Python
`None`) from "still looping after `fuel` iterations" (`none`). -/
def receiveAux (timeout : Option Rat) (start : Rat) (clock : Nat → Rat)
    (pollRes : Nat → PollOutcome) : Nat → Nat → Option (Option Nat)
  | 0, _ => none
  | fuel + 1, i =>
    if timedOut timeout (clock i - start) then some none
    else
      match pollRes i with
      | .msg m => some (some m)
      | .empty => receiveAux timeout start clock pollRes fuel (i + 1)
      | .eagain => receiveAux timeout start clock pollRes fuel (i + 1)
      | .fatal => some none

/-- Translation of `MT4BaseConnector.receive` (lines 501-543): `None` without
waiting when the PULL channel is not connected, else the polling loop started
at the current clock value. -/
def receive (connected : Bool) (timeout : Option Rat) (clock : Nat → Rat)
    (pollRes : Nat → PollOutcome) (fuel : Nat) : Option (Option Nat) :=
  if connected = false then some none
  else receiveAux timeout (clock 0) clock pollRes fuel 0

/-- Formalization of claim C7: however `receive` is called — any timeout value
including the default `None` — its wait is bounded: under any clock that
advances by at least the 0.1 s `sleep_delay` per iteration, the call returns
after finitely many loop iterations. -/
def receiveBoundedClaim : Prop :=
  ∀ (timeout : Option Rat) (clock : Nat → Rat) (pollRes : Nat → PollOutcome),
    (∀ i, clock i + 1 / 10 ≤ clock (i + 1)) →
    ∃ fuel, receive true timeout clock pollRes fuel ≠ none

/-- Formalization of claim C8's bound: `send` performs at most `max_retries`
retry delays in every execution, so it never blocks longer than
`max_retries × retry_delay`. -/
def sendDelayBoundClaim : Prop :=
  ∀ (outcomes : Nat → SendOutcome) (recOK : Nat → Bool) (maxR : Nat),
    (send true true outcomes recOK maxR).2.2 ≤ maxR

/-- Formalization of claim C6: for every intraday timeframe among M1, M5, M15,
H1, H4, during active trading hours (Monday-Friday before 21:55), a series
whose last candle is from the last trading day is judged fresh exactly when
the last candle's age is at most three times the timeframe's own period. -/
def intradayFreshnessClaim : Prop :=
  ∀ tf ∈ [TF.M1, TF.M5, TF.M15, TF.H1, TF.H4],
    ∀ (rows : List Candle) (lastDT now : DateTime),
      lastTimestamp rows = some lastDT →
      dtDays now % 7 < 5 →
      (now.hour < 21 ∨ (now.hour = 21 ∧ now.minute < 55)) →
      dtDays lastDT ≤ dtDays now →
      lastTradingDayNum now ≤ dtDays lastDT →
      (needs_update tf (some rows) now = false ↔
        (dtSecs now : Int) - (dtSecs lastDT : Int) ≤ 180 * (tfPeriodMinutes tf : Int))

/-- Mean of the close column, `last_valid["close"].mean()`. -/
def meanClose (l : List Candle) : Rat :=
  (l.map Candle.close).sum / l.length

/-- Translation of the anomaly-detection core of `analyze_file`
(`validate_csv_data.py`, lines 85-117), returning the flagged rows; `none`
models the error results (empty file, no rows inside the trailing window).
`load_data` sorts the frame by time before analysis.  The trailing window is
`LAST_HOURS_TO_KEEP = 72` hours = 259200 seconds before the last timestamp,
and the deviation threshold `MAX_PRICE_CHANGE_PCT = 50` percent. -/
def analyze_file (rows : List Candle) : Option (List Candle) :=
  let df := sortRows rows
  match lastTimestamp df with
  | none => none
  | some lastDT =>
    let threshold : Int := (dtSecs lastDT : Int) - 259200
    let lastValid := df.filter fun r => (key r : Int) ≥ threshold
    let toCheck := df.filter fun r => (key r : Int) < threshold
    if lastValid = [] then none
    else
      let avg := meanClose lastValid
      some (toCheck.filter fun r => |(r.close - avg) / avg * 100| > 50)

/-! ### Lemmas about the timestamp-keyed merge -/

theorem lookupLast_eq_some (t : Nat) (l : List Candle) (x : Candle)
    (h : lookupLast t l = some x) : x ∈ l ∧ key x = t := by
  induction l with
  | nil => simp [lookupLast] at h
  | cons c cs ih =>
    simp only [lookupLast] at h
    cases h2 : lookupLast t cs with
    | some v =>
      rw [h2] at h
      have h3 : some v = some x := h
      injection h3 with h4
      subst h4
      exact ⟨List.mem_cons_of_mem _ (ih h2).1, (ih h2).2⟩
    | none =>
      rw [h2] at h
      have h3 : (if key c = t then some c else none) = some x := h
      by_cases hk : key c = t
      · rw [if_pos hk] at h3
        injection h3 with h4
        subst h4
        exact ⟨List.mem_cons_self _ _, hk⟩
      · rw [if_neg hk] at h3
        exact absurd h3 (by simp)

theorem lookupLast_eq_none_iff (t : Nat) (l : List Candle) :
    lookupLast t l = none ↔ ∀ x ∈ l, key x ≠ t := by
  induction l with
  | nil => simp [lookupLast]
  | cons c cs ih =>
    cases h : lookupLast t cs with
    | some v =>
      have hv := lookupLast_eq_some t cs v h
      simp only [lookupLast, h, List.mem_cons]
      constructor
      · intro hc; exact absurd hc (by simp)
      · intro hall; exact absurd hv.2 (hall v (Or.inr hv.1))
    | none =>
      simp only [lookupLast, h, List.mem_cons]
      by_cases hk : key c = t
      · simp only [if_pos hk]
        constructor
        · intro hc; exact absurd hc (by simp)
        · intro hall; exact absurd hk (hall c (Or.inl rfl))
      · simp only [if_neg hk]
        constructor
        · intro _ x hx
          rcases hx with rfl | hx
          · exact hk
          · exact (ih.mp h) x hx
        · intro _; trivial

theorem lookupLast_append (t : Nat) (l₁ l₂ : List Candle) :
    lookupLast t (l₁ ++ l₂) = firstSome (lookupLast t l₂) (lookupLast t l₁) := by
  induction l₁ with
  | nil =>
    simp only [List.nil_append, lookupLast, firstSome]
    cases lookupLast t l₂ <;> rfl
  | cons c cs ih =>
    simp only [List.cons_append, lookupLast, List.append_eq, ih, firstSome]
    cases lookupLast t l₂ <;> rfl

theorem lookupLast_dedupKeepLast (t : Nat) (l : List Candle) :
    lookupLast t (dedupKeepLast l) = lookupLast t l := by
  induction l with
  | nil => rfl
  | cons c cs ih =>
    by_cases hdup : (cs.any fun c2 => decide (key c2 = key c)) = true
    · simp only [dedupKeepLast]
      rw [if_pos hdup, ih]
      cases h2 : lookupLast t cs with
      | some v => simp [lookupLast, h2]
      | none =>
        by_cases hk : key c = t
        · exfalso
          obtain ⟨x, hx, hxk⟩ := List.any_eq_true.mp hdup
          exact (lookupLast_eq_none_iff t cs).mp h2 x hx
            (by rw [of_decide_eq_true hxk, hk])
        · simp [lookupLast, h2, hk]
    · simp only [dedupKeepLast]
      rw [if_neg hdup]
      simp only [lookupLast, ih]

theorem mem_dedupKeepLast (a : Candle) (l : List Candle) :
    a ∈ dedupKeepLast l ↔ lookupLast (key a) l = some a := by
  induction l with
  | nil => simp [dedupKeepLast, lookupLast]
  | cons c cs ih =>
    by_cases hdup : (cs.any fun c2 => decide (key c2 = key c)) = true
    · simp only [dedupKeepLast]
      rw [if_pos hdup, ih]
      simp only [lookupLast]
      cases h2 : lookupLast (key a) cs with
      | some v => exact Iff.rfl
      | none =>
        by_cases hk : key c = key a
        · exfalso
          obtain ⟨x, hx, hxk⟩ := List.any_eq_true.mp hdup
          exact (lookupLast_eq_none_iff (key a) cs).mp h2 x hx
            (by rw [of_decide_eq_true hxk, hk])
        · rw [if_neg hk]
    · simp only [dedupKeepLast]
      rw [if_neg hdup]
      simp only [List.mem_cons, ih, lookupLast]
      cases h2 : lookupLast (key a) cs with
      | some v =>
        constructor
        · rintro (rfl | h3)
          · exfalso
            have hv := lookupLast_eq_some _ _ _ h2
            exact hdup (List.any_eq_true.mpr ⟨v, hv.1, decide_eq_true hv.2⟩)
          · exact h3
        · intro h3; exact Or.inr h3
      | none =>
        by_cases hk : key c = key a
        · rw [if_pos hk]
          constructor
          · rintro (rfl | h3)
            · rfl
            · exact absurd h3 (by simp)
          · intro h3; exact Or.inl (Option.some.inj h3).symm
        · rw [if_neg hk]
          constructor
          · rintro (rfl | h3)
            · exact absurd rfl hk
            · exact h3
          · intro h3; exact absurd h3 (by simp)

theorem keysNodup_dedupKeepLast (l : List Candle) :
    ((dedupKeepLast l).map key).Nodup := by
  induction l with
  | nil => simp [dedupKeepLast]
  | cons c cs ih =>
    by_cases hdup : (cs.any fun c2 => decide (key c2 = key c)) = true
    · simp only [dedupKeepLast]
      rw [if_pos hdup]
      exact ih
    · simp only [dedupKeepLast]
      rw [if_neg hdup]
      simp only [List.map_cons, List.nodup_cons]
      refine ⟨?_, ih⟩
      intro hmem
      obtain ⟨x, hx, hxk⟩ := List.mem_map.mp hmem
      have hx2 := lookupLast_eq_some _ _ _ ((mem_dedupKeepLast x cs).mp hx)
      exact hdup (List.any_eq_true.mpr ⟨x, hx2.1, decide_eq_true hxk⟩)

theorem lookupLast_of_mem_nodup (t : Nat) (x : Candle) :
    ∀ l : List Candle, (l.map key).Nodup → x ∈ l → key x = t →
      lookupLast t l = some x := by
  intro l
  induction l with
  | nil => intro _ h; cases h
  | cons c cs ih =>
    intro hn hm hk
    simp only [List.map_cons, List.nodup_cons] at hn
    rcases List.mem_cons.mp hm with rfl | hm2
    · have hnone : lookupLast t cs = none := by
        rw [lookupLast_eq_none_iff]
        intro y hy hyk
        exact hn.1 (List.mem_map.mpr ⟨y, hy, by rw [hyk, ← hk]⟩)
      simp [lookupLast, hnone, hk]
    · have h2 := ih hn.2 hm2 hk
      simp [lookupLast, h2]

instance : IsTotal Candle (fun a b => key a ≤ key b) :=
  ⟨fun a b => Nat.le_total (key a) (key b)⟩

instance : IsTrans Candle (fun a b => key a ≤ key b) :=
  ⟨fun _ _ _ h1 h2 => Nat.le_trans h1 h2⟩

instance : IsAntisymm Candle (fun a b => key a < key b) :=
  ⟨fun _ _ h1 h2 => absurd h2 (Nat.lt_asymm h1)⟩

theorem sortRows_perm (l : List Candle) : List.Perm (sortRows l) l :=
  List.perm_insertionSort _ l

theorem sortRows_sorted_le (l : List Candle) :
    List.Sorted (fun a b => key a ≤ key b) (sortRows l) :=
  List.sorted_insertionSort _ l

theorem keysNodup_sortRows (l : List Candle) (hn : (l.map key).Nodup) :
    ((sortRows l).map key).Nodup :=
  (((sortRows_perm l).map key).nodup_iff).mpr hn

theorem strictSorted_of_sorted_le_nodup (l : List Candle)
    (hs : List.Sorted (fun a b => key a ≤ key b) l) (hn : (l.map key).Nodup) :
    strictSorted l := by
  have hne : List.Pairwise (fun a b => key a ≠ key b) l := List.pairwise_map.mp hn
  exact (hs.and hne).imp fun h => Nat.lt_of_le_of_ne h.1 h.2

theorem keysNodup_mergeRows (a b : List Candle) :
    ((mergeRows a b).map key).Nodup :=
  keysNodup_sortRows _ (keysNodup_dedupKeepLast _)

theorem strictSorted_mergeRows (a b : List Candle) :
    strictSorted (mergeRows a b) :=
  strictSorted_of_sorted_le_nodup _ (sortRows_sorted_le _) (keysNodup_mergeRows a b)

theorem sortRows_eq_of_strictSorted (l : List Candle) (h : strictSorted l) :
    sortRows l = l :=
  List.Sorted.insertionSort_eq (h.imp fun hab => Nat.le_of_lt hab)

theorem lookupLast_sortRows (t : Nat) (l : List Candle) (hn : (l.map key).Nodup) :
    lookupLast t (sortRows l) = lookupLast t l := by
  cases h : lookupLast t l with
  | some x =>
    have hx := lookupLast_eq_some _ _ _ h
    exact lookupLast_of_mem_nodup t x (sortRows l) (keysNodup_sortRows l hn)
      ((sortRows_perm l).mem_iff.mpr hx.1) hx.2
  | none =>
    rw [lookupLast_eq_none_iff] at h ⊢
    intro x hx
    exact h x ((sortRows_perm l).mem_iff.mp hx)

theorem lookupLast_mergeRows (t : Nat) (a b : List Candle) :
    lookupLast t (mergeRows a b) = lookupLast t (a ++ b) := by
  rw [mergeRows, lookupLast_sortRows t _ (keysNodup_dedupKeepLast _),
    lookupLast_dedupKeepLast]

theorem mem_mergeRows (u v : List Candle) (x : Candle) :
    x ∈ mergeRows u v ↔ lookupLast (key x) (mergeRows u v) = some x := by
  constructor
  · intro hx
    exact lookupLast_of_mem_nodup _ x _ (keysNodup_mergeRows u v) hx rfl
  · intro h
    exact (lookupLast_eq_some _ _ _ h).1

theorem mergeRows_idem (a b : List Candle) :
    mergeRows (mergeRows a b) b = mergeRows a b := by
  have hl : ∀ t, lookupLast t (mergeRows (mergeRows a b) b) =
      lookupLast t (mergeRows a b) := by
    intro t
    rw [lookupLast_mergeRows, lookupLast_append, lookupLast_mergeRows,
      lookupLast_append]
    cases lookupLast t b <;> rfl
  have hm : ∀ x, x ∈ mergeRows (mergeRows a b) b ↔ x ∈ mergeRows a b := by
    intro x
    rw [mem_mergeRows, mem_mergeRows, hl (key x)]
  have hnd1 : (mergeRows (mergeRows a b) b).Nodup :=
    (keysNodup_mergeRows _ _).of_map
  have hnd2 : (mergeRows a b).Nodup := (keysNodup_mergeRows _ _).of_map
  exact List.eq_of_perm_of_sorted
    ((List.perm_ext_iff_of_nodup hnd1 hnd2).mpr hm)
    (strictSorted_mergeRows _ _) (strictSorted_mergeRows _ _)

/-! ### Claim theorems -/

/-- C1 (amended): whenever the existing series re-reads cleanly (its spread
column is integer-valued, so the `dtype` spread-int read does not raise) and
`save_data` returns success — the payload is nonempty, has parseable rows,
and passes the `verify_new_data` consistency gate — the produced file's rows
are the union of the previously persisted rows and the new rows keyed by
timestamp, with the new row's values replacing the old row's for every
timestamp present in both, sorted strictly ascending by timestamp, and the
whole file is rewritten with every row in the canonical `YYYY.MM.DD HH:MM`
timestamp text form.  The unamended claim fails because `verify_new_data` can
reject a validated payload, writing nothing; and when the re-read raises, the
except fallback (lines 639-641) returns success with the file rewritten as
the payload alone, discarding every existing row. -/
theorem save_data_merges (tf : TF) (ex : List Candle) (p : List RawCandle)
    (hex : strictSorted ex) (hread : spreadReadOK ex = true)
    (hsucc : (save_data tf (some ex) p).1 = true) :
    (save_data tf (some ex) p).2 = some (mergeRows ex (parseRows p))
    ∧ (∀ t, lookupLast t (mergeRows ex (parseRows p)) =
        firstSome (lookupLast t (parseRows p)) (lookupLast t ex))
    ∧ strictSorted (mergeRows ex (parseRows p))
    ∧ serializeSeries (mergeRows ex (parseRows p)) =
        "time,open,high,low,close,tick_volume,spread,real_volume"
          :: (mergeRows ex (parseRows p)).map serializeRow := by
  have hsort : sortRows ex = ex := sortRows_eq_of_strictSorted ex hex
  have h2 : (save_data tf (some ex) p).2 = some (mergeRows ex (parseRows p)) := by
    by_cases hp : p = []
    · simp only [save_data, if_pos hp] at hsucc
      exact absurd hsucc (by simp)
    · by_cases hn : parseRows p = []
      · simp only [save_data, if_neg hp, if_pos hn] at hsucc
        exact absurd hsucc (by simp)
      · by_cases hv : verify_new_data tf (parseRows p) (sortRows ex) = false
        · simp only [save_data, if_neg hp, if_neg hn, if_pos hread, if_pos hv] at hsucc
          exact absurd hsucc (by simp)
        · simp only [save_data, if_neg hp, if_neg hn, if_pos hread, if_neg hv]
          rw [hsort]
  have h3 : ∀ t, lookupLast t (mergeRows ex (parseRows p)) =
      firstSome (lookupLast t (parseRows p)) (lookupLast t ex) := by
    intro t
    rw [lookupLast_mergeRows, lookupLast_append]
  exact ⟨h2, h3, strictSorted_mergeRows _ _, rfl⟩

/-- Witness for C1: a one-row file at 2024-01-01 00:00 merged with a one-row
payload at 2024-01-01 00:05. -/
theorem save_data_merges_witness :
    (save_data TF.M5 (some [⟨⟨2024, 1, 1, 0, 0, 0⟩, 1, 1, 1, 1, 0, 0, 0⟩])
        [⟨some ⟨2024, 1, 1, 0, 5, 0⟩, 2, 2, 2, 1, 0, 0, 0⟩]).2 =
      some (mergeRows [⟨⟨2024, 1, 1, 0, 0, 0⟩, 1, 1, 1, 1, 0, 0, 0⟩]
        (parseRows [⟨some ⟨2024, 1, 1, 0, 5, 0⟩, 2, 2, 2, 1, 0, 0, 0⟩]))
    ∧ strictSorted (mergeRows [⟨⟨2024, 1, 1, 0, 0, 0⟩, 1, 1, 1, 1, 0, 0, 0⟩]
        (parseRows [⟨some ⟨2024, 1, 1, 0, 5, 0⟩, 2, 2, 2, 1, 0, 0, 0⟩])) := by
  have hpr : parseRows [⟨some ⟨2024, 1, 1, 0, 5, 0⟩, 2, 2, 2, 1, 0, 0, 0⟩] =
      [⟨⟨2024, 1, 1, 0, 5, 0⟩, 2, 2, 2, 1, 0, 0, 0⟩] := rfl
  have hsr : sortRows [⟨⟨2024, 1, 1, 0, 0, 0⟩, 1, 1, 1, 1, 0, 0, 0⟩] =
      [⟨⟨2024, 1, 1, 0, 0, 0⟩, 1, 1, 1, 1, 0, 0, 0⟩] := rfl
  have hv : verify_new_data TF.M5 [⟨⟨2024, 1, 1, 0, 5, 0⟩, 2, 2, 2, 1, 0, 0, 0⟩]
      [⟨⟨2024, 1, 1, 0, 0, 0⟩, 1, 1, 1, 1, 0, 0, 0⟩] = true := by
    norm_num [verify_new_data, verifyInterval, List.getLast?, key, dtSecs,
      dtDays, daysFromCivil, daysBeforeMonth, isLeap]
  have hro : spreadReadOK [⟨⟨2024, 1, 1, 0, 0, 0⟩, 1, 1, 1, 1, 0, 0, 0⟩] = true := by
    decide
  have h := save_data_merges TF.M5 [⟨⟨2024, 1, 1, 0, 0, 0⟩, 1, 1, 1, 1, 0, 0, 0⟩]
    [⟨some ⟨2024, 1, 1, 0, 5, 0⟩, 2, 2, 2, 1, 0, 0, 0⟩] (by decide) hro
    (by simp [save_data, hpr, hsr, hro, hv])
  exact ⟨h.1, h.2.2.1⟩

theorem mem_mergeRows_append (a b : List Candle) (c : Candle)
    (h : c ∈ mergeRows a b) : c ∈ a ++ b := by
  have h2 := (mem_mergeRows a b c).mp h
  rw [lookupLast_mergeRows] at h2
  exact (lookupLast_eq_some _ _ _ h2).1

theorem spreadReadOK_mergeRows (a b : List Candle)
    (hha : ∀ c ∈ a, c.spread.den = 1) (hhb : ∀ c ∈ b, c.spread.den = 1) :
    spreadReadOK (mergeRows a b) = true := by
  rw [spreadReadOK, List.all_eq_true]
  intro c hc
  rcases List.mem_append.mp (mem_mergeRows_append a b c hc) with h | h
  · exact decide_eq_true (hha c h)
  · exact decide_eq_true (hhb c h)

theorem parseRows_spread (p : List RawCandle)
    (hp : ∀ rc ∈ p, rc.spread.den = 1) :
    ∀ c ∈ parseRows p, c.spread.den = 1 := by
  intro c hc
  rw [parseRows] at hc
  obtain ⟨rc, hrc, hmap⟩ := List.mem_filterMap.mp hc
  cases ht : rc.time with
  | none =>
    rw [ht] at hmap
    exact absurd hmap (by simp)
  | some t =>
    rw [ht] at hmap
    obtain rfl : (⟨t, rc.open_, rc.high, rc.low, rc.close, rc.tick_volume,
        rc.spread, rc.real_volume⟩ : Candle) = c := by
      simpa using hmap
    exact hp rc hrc

/-- C2 (amended): the merge-and-persist step is idempotent on every starting
state provided the payload's spread values are integers — then the persisted
file re-reads cleanly and applying `save_data` a second time with the
identical payload leaves the file (state and serialized bytes) exactly as
after the first application, including the rejection paths where nothing is
written.  The proviso is forced: a payload carrying a non-integer spread
merges on the first call but makes the second call's dtype-int re-read raise,
and the except fallback then rewrites the file as the payload alone. -/
theorem save_data_idempotent (tf : TF) (st : Option (List Candle))
    (p : List RawCandle) (hp : ∀ rc ∈ p, rc.spread.den = 1) :
    save_data_state tf (save_data_state tf st p) p = save_data_state tf st p
    ∧ Option.map serializeSeries (save_data_state tf (save_data_state tf st p) p) =
        Option.map serializeSeries (save_data_state tf st p) := by
  suffices h : save_data_state tf (save_data_state tf st p) p = save_data_state tf st p by
    exact ⟨h, by rw [h]⟩
  have hnew : ∀ c ∈ parseRows p, c.spread.den = 1 := parseRows_spread p hp
  by_cases hp0 : p = []
  · simp [save_data_state, save_data, hp0]
  by_cases hn : parseRows p = []
  · simp [save_data_state, save_data, hp0, hn]
  have hroNew : spreadReadOK (mergeRows [] (parseRows p)) = true :=
    spreadReadOK_mergeRows [] _ (by intro c hc; cases hc) hnew
  have hXsNew : sortRows (mergeRows [] (parseRows p)) = mergeRows [] (parseRows p) :=
    sortRows_eq_of_strictSorted _ (strictSorted_mergeRows _ _)
  cases st with
  | none =>
    have h1 : save_data_state tf none p = some (mergeRows [] (parseRows p)) := by
      simp [save_data_state, save_data, hp0, hn]
    rw [h1]
    by_cases hv : verify_new_data tf (parseRows p) (mergeRows [] (parseRows p)) = false
    · simp [save_data_state, save_data, hp0, hn, hroNew, hXsNew, hv]
    · simp only [save_data_state, save_data, if_neg hp0, if_neg hn,
        if_pos hroNew, hXsNew, if_neg hv]
      exact congrArg some (mergeRows_idem [] (parseRows p))
  | some ex =>
    by_cases hro : spreadReadOK ex = true
    · have hexAll : ∀ c ∈ ex, c.spread.den = 1 := by
        rw [spreadReadOK, List.all_eq_true] at hro
        intro c hc
        exact of_decide_eq_true (hro c hc)
      by_cases hv1 : verify_new_data tf (parseRows p) (sortRows ex) = false
      · have h1 : save_data_state tf (some ex) p = some ex := by
          simp [save_data_state, save_data, hp0, hn, hro, hv1]
        rw [h1]
        exact h1
      · have h1 : save_data_state tf (some ex) p =
            some (mergeRows (sortRows ex) (parseRows p)) := by
          simp [save_data_state, save_data, hp0, hn, hro, hv1]
        rw [h1]
        have hsorted : ∀ c ∈ sortRows ex, c.spread.den = 1 := by
          intro c hc
          exact hexAll c ((sortRows_perm ex).mem_iff.mp hc)
        have hroX : spreadReadOK (mergeRows (sortRows ex) (parseRows p)) = true :=
          spreadReadOK_mergeRows _ _ hsorted hnew
        have hXs : sortRows (mergeRows (sortRows ex) (parseRows p)) =
            mergeRows (sortRows ex) (parseRows p) :=
          sortRows_eq_of_strictSorted _ (strictSorted_mergeRows _ _)
        by_cases hv2 : verify_new_data tf (parseRows p)
            (mergeRows (sortRows ex) (parseRows p)) = false
        · simp [save_data_state, save_data, hp0, hn, hroX, hXs, hv2]
        · simp only [save_data_state, save_data, if_neg hp0, if_neg hn,
            if_pos hroX, hXs, if_neg hv2]
          exact congrArg some (mergeRows_idem (sortRows ex) (parseRows p))
    · have h1 : save_data_state tf (some ex) p = some (mergeRows [] (parseRows p)) := by
        simp [save_data_state, save_data, hp0, hn, hro]
      rw [h1]
      by_cases hv : verify_new_data tf (parseRows p) (mergeRows [] (parseRows p)) = false
      · simp [save_data_state, save_data, hp0, hn, hroNew, hXsNew, hv]
      · simp only [save_data_state, save_data, if_neg hp0, if_neg hn,
          if_pos hroNew, hXsNew, if_neg hv]
        exact congrArg some (mergeRows_idem [] (parseRows p))

/-- Witness for C2's amended statement: an integer-spread payload re-merged
into a one-row file leaves the state unchanged on the second application. -/
theorem save_data_idempotent_witness :
    save_data_state TF.M5
      (save_data_state TF.M5
        (some [⟨⟨2024, 1, 1, 0, 0, 0⟩, 1, 1, 1, 1, 0, 0, 0⟩])
        [⟨some ⟨2024, 1, 1, 0, 5, 0⟩, 2, 2, 2, 1, 0, 0, 0⟩])
      [⟨some ⟨2024, 1, 1, 0, 5, 0⟩, 2, 2, 2, 1, 0, 0, 0⟩] =
    save_data_state TF.M5
      (some [⟨⟨2024, 1, 1, 0, 0, 0⟩, 1, 1, 1, 1, 0, 0, 0⟩])
      [⟨some ⟨2024, 1, 1, 0, 5, 0⟩, 2, 2, 2, 1, 0, 0, 0⟩] :=
  (save_data_idempotent TF.M5
    (some [⟨⟨2024, 1, 1, 0, 0, 0⟩, 1, 1, 1, 1, 0, 0, 0⟩])
    [⟨some ⟨2024, 1, 1, 0, 5, 0⟩, 2, 2, 2, 1, 0, 0, 0⟩] (by decide)).1

/-- C2 counterexample: a timeframe- and consistency-validated payload whose
spread is the non-integer 1/ 2 merges on the first `save_data`, but the
float-formatted spread column it leaves behind makes the second call's
dtype-int re-read raise; the except fallback then rewrites the file as the
payload alone, dropping the previously persisted row, so the file after the
second application is not byte-identical to the file after the first. -/
theorem save_data_idem_counterexample :
    save_data_state TF.M5
      (save_data_state TF.M5
        (some [⟨⟨2024, 1, 1, 0, 0, 0⟩, 1, 1, 1, 1, 0, 0, 0⟩])
        [⟨some ⟨2024, 1, 1, 0, 5, 0⟩, 1, 1, 1, 1, 0, Rat.mk' 1 2, 0⟩])
      [⟨some ⟨2024, 1, 1, 0, 5, 0⟩, 1, 1, 1, 1, 0, Rat.mk' 1 2, 0⟩] ≠
    save_data_state TF.M5
      (some [⟨⟨2024, 1, 1, 0, 0, 0⟩, 1, 1, 1, 1, 0, 0, 0⟩])
      [⟨some ⟨2024, 1, 1, 0, 5, 0⟩, 1, 1, 1, 1, 0, Rat.mk' 1 2, 0⟩] := by
  have hpr : parseRows [⟨some ⟨2024, 1, 1, 0, 5, 0⟩, 1, 1, 1, 1, 0, Rat.mk' 1 2, 0⟩] =
      [⟨⟨2024, 1, 1, 0, 5, 0⟩, 1, 1, 1, 1, 0, Rat.mk' 1 2, 0⟩] := rfl
  have hsr : sortRows [⟨⟨2024, 1, 1, 0, 0, 0⟩, 1, 1, 1, 1, 0, 0, 0⟩] =
      [⟨⟨2024, 1, 1, 0, 0, 0⟩, 1, 1, 1, 1, 0, 0, 0⟩] := rfl
  have hro1 : spreadReadOK [⟨⟨2024, 1, 1, 0, 0, 0⟩, 1, 1, 1, 1, 0, 0, 0⟩] = true := by
    decide
  have hv : verify_new_data TF.M5
      [⟨⟨2024, 1, 1, 0, 5, 0⟩, 1, 1, 1, 1, 0, Rat.mk' 1 2, 0⟩]
      [⟨⟨2024, 1, 1, 0, 0, 0⟩, 1, 1, 1, 1, 0, 0, 0⟩] = true := by
    norm_num [verify_new_data, verifyInterval, List.getLast?, key, dtSecs,
      dtDays, daysFromCivil, daysBeforeMonth, isLeap]
  have hmerge : mergeRows [⟨⟨2024, 1, 1, 0, 0, 0⟩, 1, 1, 1, 1, 0, 0, 0⟩]
      [⟨⟨2024, 1, 1, 0, 5, 0⟩, 1, 1, 1, 1, 0, Rat.mk' 1 2, 0⟩] =
      [⟨⟨2024, 1, 1, 0, 0, 0⟩, 1, 1, 1, 1, 0, 0, 0⟩,
       ⟨⟨2024, 1, 1, 0, 5, 0⟩, 1, 1, 1, 1, 0, Rat.mk' 1 2, 0⟩] := by decide
  have h1 : save_data_state TF.M5
      (some [⟨⟨2024, 1, 1, 0, 0, 0⟩, 1, 1, 1, 1, 0, 0, 0⟩])
      [⟨some ⟨2024, 1, 1, 0, 5, 0⟩, 1, 1, 1, 1, 0, Rat.mk' 1 2, 0⟩] =
      some [⟨⟨2024, 1, 1, 0, 0, 0⟩, 1, 1, 1, 1, 0, 0, 0⟩,
        ⟨⟨2024, 1, 1, 0, 5, 0⟩, 1, 1, 1, 1, 0, Rat.mk' 1 2, 0⟩] := by
    simp [save_data_state, save_data, hpr, hsr, hro1, hv, hmerge]
  rw [h1]
  have hro2 : spreadReadOK
      [⟨⟨2024, 1, 1, 0, 0, 0⟩, 1, 1, 1, 1, 0, 0, 0⟩,
       ⟨⟨2024, 1, 1, 0, 5, 0⟩, 1, 1, 1, 1, 0, Rat.mk' 1 2, 0⟩] = false := by
    decide
  have hmerge2 : mergeRows [] [⟨⟨2024, 1, 1, 0, 5, 0⟩, 1, 1, 1, 1, 0, Rat.mk' 1 2, 0⟩] =
      [⟨⟨2024, 1, 1, 0, 5, 0⟩, 1, 1, 1, 1, 0, Rat.mk' 1 2, 0⟩] := by decide
  have h2 : save_data_state TF.M5
      (some [⟨⟨2024, 1, 1, 0, 0, 0⟩, 1, 1, 1, 1, 0, 0, 0⟩,
        ⟨⟨2024, 1, 1, 0, 5, 0⟩, 1, 1, 1, 1, 0, Rat.mk' 1 2, 0⟩])
      [⟨some ⟨2024, 1, 1, 0, 5, 0⟩, 1, 1, 1, 1, 0, Rat.mk' 1 2, 0⟩] =
      some [⟨⟨2024, 1, 1, 0, 5, 0⟩, 1, 1, 1, 1, 0, Rat.mk' 1 2, 0⟩] := by
    simp [save_data_state, save_data, hpr, hro2, hmerge2]
  rw [h2]
  decide

theorem consecDiffs_const (l : List Nat)
    (h : List.Chain' (fun a b => b = a + 300) l) :
    consecDiffs l = List.replicate (l.length - 1) 5 := by
  induction l with
  | nil => rfl
  | cons a t ih =>
    cases t with
    | nil => rfl
    | cons b t2 =>
      rw [List.chain'_cons] at h
      obtain ⟨hb, hrest⟩ := h
      subst hb
      simp only [consecDiffs]
      have h60 : (a + 300 - a) / 60 = 5 := by omega
      rw [h60, ih hrest]
      simp [List.replicate_succ]

theorem mode_const (c : Nat) (l : List Nat) (hne : l ≠ [])
    (h : ∀ y ∈ l, y = c) : mode l = c := by
  cases l with
  | nil => exact absurd rfl hne
  | cons x xs =>
    have hfold : ∀ (ys : List Nat) (acc : Nat), acc = c → (∀ y ∈ ys, y = c) →
        ys.foldl (fun best y =>
          if (x :: xs).count y > (x :: xs).count best then y else best) acc = c := by
      intro ys
      induction ys with
      | nil => intro acc ha _; exact ha
      | cons z zs ih2 =>
        intro acc ha hz
        simp only [List.foldl_cons]
        apply ih2
        · rw [hz z (List.mem_cons_self _ _), ha, ite_self]
        · intro y hy; exact hz y (List.mem_cons_of_mem _ hy)
    simp only [mode]
    exact hfold (x :: xs) x (h x (List.mem_cons_self _ _)) h

theorem parseRows_length (l : List RawCandle) (h : ∀ c ∈ l, c.time ≠ none) :
    (parseRows l).length = l.length := by
  induction l with
  | nil => rfl
  | cons c cs ih =>
    cases hc : c.time with
    | none => exact absurd hc (h c (List.mem_cons_self _ _))
    | some t =>
      simp only [parseRows, List.filterMap_cons, hc, Option.map_some]
      simp only [parseRows] at ih
      simp [ih fun x hx => h x (List.mem_cons_of_mem _ hx)]

/-- C3: `verify_timeframe` computes the mode of the pairwise deltas of the
sorted timestamps and compares it, within tolerance of one minute, to the
requested timeframe's expected delta.  For every payload of at least two
candles spaced exactly 300 seconds apart it answers true for requested M5 and
false with detected timeframe `M5` for requested M1. -/
theorem verify_timeframe_300s (data : List RawCandle)
    (h2 : 2 ≤ data.length)
    (hsome : data.any (fun c => c.time = none) = false)
    (hch : List.Chain' (fun a b => b = a + 300)
      (((parseRows data).map key).insertionSort (· ≤ ·))) :
    verify_timeframe data TF.M5 = (true, "M5")
    ∧ verify_timeframe data TF.M1 = (false, "M5") := by
  have htime : ∀ c ∈ data, c.time ≠ none := by
    intro c hc hnone
    have : data.any (fun c => c.time = none) = true :=
      List.any_eq_true.mpr ⟨c, hc, decide_eq_true hnone⟩
    rw [hsome] at this
    exact absurd this (by simp)
  have hlen : (((parseRows data).map key).insertionSort (· ≤ ·)).length =
      data.length := by
    rw [List.length_insertionSort, List.length_map, parseRows_length data htime]
  have hdiffs : consecDiffs (((parseRows data).map key).insertionSort (· ≤ ·)) =
      List.replicate (data.length - 1) 5 := by
    rw [consecDiffs_const _ hch, hlen]
  obtain ⟨k, hk⟩ : ∃ k, data.length - 1 = k + 1 := ⟨data.length - 2, by omega⟩
  rw [hk, List.replicate_succ] at hdiffs
  have hmode : mode (5 :: List.replicate k 5) = 5 := by
    apply mode_const
    · simp
    · intro y hy
      rcases List.mem_cons.mp hy with rfl | hy2
      · rfl
      · exact List.eq_of_mem_replicate hy2
  have hnotlt : ¬ data.length < 2 := by omega
  constructor
  · simp only [verify_timeframe, if_neg hnotlt, hsome, Bool.false_eq_true,
      if_false, hdiffs, hmode]
    decide
  · simp only [verify_timeframe, if_neg hnotlt, hsome, Bool.false_eq_true,
      if_false, hdiffs, hmode]
    decide

/-- Witness for C3: three candles at 00:00, 00:05, 00:10 on 2024-01-01. -/
theorem verify_timeframe_300s_witness :
    verify_timeframe
      [⟨some ⟨2024, 1, 1, 0, 0, 0⟩, 1, 1, 1, 1, 0, 0, 0⟩,
       ⟨some ⟨2024, 1, 1, 0, 5, 0⟩, 1, 1, 1, 1, 0, 0, 0⟩,
       ⟨some ⟨2024, 1, 1, 0, 10, 0⟩, 1, 1, 1, 1, 0, 0, 0⟩] TF.M5 = (true, "M5")
    ∧ verify_timeframe
      [⟨some ⟨2024, 1, 1, 0, 0, 0⟩, 1, 1, 1, 1, 0, 0, 0⟩,
       ⟨some ⟨2024, 1, 1, 0, 5, 0⟩, 1, 1, 1, 1, 0, 0, 0⟩,
       ⟨some ⟨2024, 1, 1, 0, 10, 0⟩, 1, 1, 1, 1, 0, 0, 0⟩] TF.M1 = (false, "M5") :=
  verify_timeframe_300s
    [⟨some ⟨2024, 1, 1, 0, 0, 0⟩, 1, 1, 1, 1, 0, 0, 0⟩,
     ⟨some ⟨2024, 1, 1, 0, 5, 0⟩, 1, 1, 1, 1, 0, 0, 0⟩,
     ⟨some ⟨2024, 1, 1, 0, 10, 0⟩, 1, 1, 1, 1, 0, 0, 0⟩]
    (by decide) (by decide)
    (by
      have hs : ((parseRows
          [⟨some ⟨2024, 1, 1, 0, 0, 0⟩, 1, 1, 1, 1, 0, 0, 0⟩,
           ⟨some ⟨2024, 1, 1, 0, 5, 0⟩, 1, 1, 1, 1, 0, 0, 0⟩,
           ⟨some ⟨2024, 1, 1, 0, 10, 0⟩, 1, 1, 1, 1, 0, 0, 0⟩]).map key).insertionSort
            (· ≤ ·) =
          [dtSecs ⟨2024, 1, 1, 0, 0, 0⟩, dtSecs ⟨2024, 1, 1, 0, 5, 0⟩,
           dtSecs ⟨2024, 1, 1, 0, 10, 0⟩] := by decide
      rw [hs]
      refine List.chain'_cons.mpr ⟨by decide, ?_⟩
      refine List.chain'_cons.mpr ⟨by decide, ?_⟩
      exact List.chain'_singleton _)

/-- C4: when the sanitized response cannot be decoded into structured data, or
its timeframe validation fails, `fetch_symbol_data` returns failure and the
persisted series state is exactly what it was before the fetch — no partial
write happens on any failure path. -/
theorem fetch_failure_preserves_file (dec : List Char → Option Msg) (tf : TF)
    (now : DateTime) (st : Option (List Candle)) (r : List Char)
    (hup : needs_update tf st now = true)
    (hfail : match dec (fixFrames (sanitize r)) with
      | none => True
      | some msg => (verify_timeframe msg.data tf).1 = false) :
    fetch_symbol_data dec tf now true st (some r) = (false, st) := by
  cases hdec : dec (fixFrames (sanitize r)) with
  | none => simp [fetch_symbol_data, hup, hdec]
  | some msg =>
    have hfail2 : (verify_timeframe msg.data tf).1 = false := by
      rw [hdec] at hfail
      exact hfail
    by_cases hna : msg.notAvailable
    · simp [fetch_symbol_data, hup, hdec, hna]
    · by_cases hdat : msg.data = []
      · simp [fetch_symbol_data, hup, hdec, hna, hdat]
      · simp [fetch_symbol_data, hup, hdec, hna, hdat, hfail2]

/-- Witness for C4: a decoder that rejects everything, a missing series file,
and an empty response text. -/
theorem fetch_failure_preserves_file_witness :
    fetch_symbol_data (fun _ => none) TF.M5 ⟨2025, 1, 8, 12, 0, 0⟩ true none
      (some []) = (false, none) :=
  fetch_failure_preserves_file (fun _ => none) TF.M5 ⟨2025, 1, 8, 12, 0, 0⟩
    none [] (by decide) trivial

theorem containsSub_append_break (a b : List Char) :
    containsSub frameBreak (a ++ frameBreak ++ b) = true := by
  induction a with
  | nil => simp [containsSub, startsWith, frameBreak]
  | cons c cs ih =>
    simp [containsSub, List.cons_append]
    exact Or.inr (by rw [← List.append_assoc]; exact ih)

theorem takeUntilBreak_append (a b : List Char)
    (ha : containsSub frameBreak a = false) :
    takeUntilBreak (a ++ frameBreak ++ b) = a := by
  induction a with
  | nil => simp [takeUntilBreak, startsWith, frameBreak]
  | cons c cs ih =>
    rw [containsSub] at ha
    have hparts := Bool.or_eq_false_iff.mp ha
    have hsw : startsWith frameBreak (c :: (cs ++ frameBreak ++ b)) = false := by
      cases cs with
      | nil =>
        have hlr : (lbrace == rbrace) = false := by decide
        simp [startsWith, frameBreak, hlr]
      | cons d ds =>
        have hsw0 : startsWith frameBreak (c :: d :: ds) = false := hparts.1
        simp only [startsWith, frameBreak, List.cons_append] at hsw0 ⊢
        exact hsw0
    have hshape : (c :: cs) ++ frameBreak ++ b = c :: (cs ++ frameBreak ++ b) := by
      simp
    rw [hshape]
    simp only [takeUntilBreak, hsw, Bool.false_eq_true, if_false]
    rw [ih hparts.2]

/-- C10 (implicit): when the sanitized response contains concatenated frames
(the `close bracket`-`open bracket` break), only the first frame, closed with
a single closing bracket, is handed to the decoder; everything after the break
is discarded — two responses that agree on the first frame produce the same
fetch result and the same persisted state, whatever follows the break. -/
theorem fetch_first_frame_only (dec : List Char → Option Msg) (tf : TF)
    (now : DateTime) (sendOk : Bool) (st : Option (List Candle))
    (a b bp r rp : List Char)
    (ha : containsSub frameBreak a = false)
    (hr : sanitize r = a ++ frameBreak ++ b)
    (hrp : sanitize rp = a ++ frameBreak ++ bp) :
    fixFrames (sanitize r) = a ++ [rbrace]
    ∧ fetch_symbol_data dec tf now sendOk st (some r) =
        fetch_symbol_data dec tf now sendOk st (some rp) := by
  have key1 : fixFrames (a ++ frameBreak ++ b) = a ++ [rbrace] := by
    rw [fixFrames, if_pos (containsSub_append_break a b),
      takeUntilBreak_append a b ha]
  have key2 : fixFrames (a ++ frameBreak ++ bp) = a ++ [rbrace] := by
    rw [fixFrames, if_pos (containsSub_append_break a bp),
      takeUntilBreak_append a bp ha]
  constructor
  · rw [hr]
    exact key1
  · simp only [fetch_symbol_data, hr, hrp, key1, key2]

/-- Witness for C10: two sanitized two-frame responses sharing the first frame
but with different second frames are processed identically, and only the first
frame reaches the decoder. -/
theorem fetch_first_frame_only_witness :
    fixFrames (sanitize ([lbrace] ++ frameBreak ++ [lbrace, rbrace])) =
      [lbrace] ++ [rbrace]
    ∧ fetch_symbol_data (fun _ => none) TF.M5 ⟨2025, 1, 8, 12, 0, 0⟩ true none
        (some ([lbrace] ++ frameBreak ++ [lbrace, rbrace])) =
      fetch_symbol_data (fun _ => none) TF.M5 ⟨2025, 1, 8, 12, 0, 0⟩ true none
        (some ([lbrace] ++ frameBreak ++ [rbrace])) :=
  fetch_first_frame_only (fun _ => none) TF.M5 ⟨2025, 1, 8, 12, 0, 0⟩ true none
    [lbrace] [lbrace, rbrace] [rbrace]
    ([lbrace] ++ frameBreak ++ [lbrace, rbrace])
    ([lbrace] ++ frameBreak ++ [rbrace])
    (by decide) (by decide) (by decide)

/-- C5: the claim that every processing path decodes remote text only through
the sanitation pass followed by the safe structured-data decoder is false of
the code: `MT4HistoricalDataHandler._process_message` hands the raw message
text directly to the Python expression evaluator (`eval(msg)`, line 176), so
its result is not a function of the sanitize-then-decode pipeline. -/
theorem process_message_evals_raw_text : ¬ sanitizedDecodeClaim := by
  intro h
  have h2 := h (fun _ => none) (fun _ => some ⟨true, []⟩) []
  simp [processMessageParse] at h2

theorem freshness_core (x : Int) (k : Nat) :
    ((if ((x : Rat)) / 60 > (k : Rat) * 3 then true else false) = false) ↔
      x ≤ 180 * (k : Int) := by
  by_cases hc : ((x : Rat)) / 60 > (k : Rat) * 3
  · simp only [if_pos hc]
    constructor
    · intro h
      exact absurd h (by simp)
    · intro h
      exfalso
      rw [gt_iff_lt, lt_div_iff₀ (by norm_num : (0 : Rat) < 60)] at hc
      have h2 : ((180 * (k : Int) : Int) : Rat) < (x : Rat) := by
        push_cast
        linarith
      have h3 : (180 * (k : Int) : Int) < x := by exact_mod_cast h2
      omega
  · simp only [if_neg hc]
    constructor
    · intro _
      rw [gt_iff_lt, lt_div_iff₀ (by norm_num : (0 : Rat) < 60)] at hc
      have h2 : (x : Rat) ≤ ((180 * (k : Int) : Int) : Rat) := by
        push_cast
        linarith [not_lt.mp hc]
      exact_mod_cast h2
    · intro _
      trivial

/-- C6 counterexample: on Wednesday 2025-01-08 at 12:00, an H1 series whose
last candle is from 11:00 the same day is 60 minutes old — within three times
the one-hour period — yet `needs_update` still demands an update, because the
intraday threshold for H-timeframes falls back to 5 minutes
(`int(timeframe[1:]) if timeframe[0] == "M" else 5`). -/
theorem intraday_freshness_counterexample : ¬ intradayFreshnessClaim := by
  intro h
  have h2 := h TF.H1 (by decide)
    [⟨⟨2025, 1, 8, 11, 0, 0⟩, 1, 1, 1, 1, 0, 0, 0⟩]
    ⟨2025, 1, 8, 11, 0, 0⟩ ⟨2025, 1, 8, 12, 0, 0⟩ rfl (by decide) (by decide)
    (by decide) (by decide)
  have h3 : needs_update TF.H1
      (some [⟨⟨2025, 1, 8, 11, 0, 0⟩, 1, 1, 1, 1, 0, 0, 0⟩])
      ⟨2025, 1, 8, 12, 0, 0⟩ = false := h2.mpr (by decide)
  have h4 : needs_update TF.H1
      (some [⟨⟨2025, 1, 8, 11, 0, 0⟩, 1, 1, 1, 1, 0, 0, 0⟩])
      ⟨2025, 1, 8, 12, 0, 0⟩ = true := by
    norm_num [needs_update, lastTimestamp, lastTradingDayNum, mIntervalFallback,
      dtSecs, dtDays, daysFromCivil, daysBeforeMonth, isLeap]
  rw [h4] at h3
  exact absurd h3 (by simp)

/-- C6 amended: for M1, M5, M15, H1, H4, during active trading hours
(Monday-Friday before 21:55) and with the last candle from the last trading
day, `needs_update` answers "fresh" exactly when the last candle's age is at
most three times the *effective* interval of the timeframe — the timeframe's
own period for M-prefixed timeframes, but a 5-minute fallback for H1 and H4. -/
theorem needs_update_intraday (tf : TF)
    (htf : tf ∈ [TF.M1, TF.M5, TF.M15, TF.H1, TF.H4])
    (rows : List Candle) (lastDT now : DateTime)
    (hlast : lastTimestamp rows = some lastDT)
    (hwd : dtDays now % 7 < 5)
    (hhr : now.hour < 21 ∨ (now.hour = 21 ∧ now.minute < 55))
    (hle : dtDays lastDT ≤ dtDays now)
    (hltd : lastTradingDayNum now ≤ dtDays lastDT) :
    needs_update tf (some rows) now = false ↔
      (dtSecs now : Int) - (dtSecs lastDT : Int) ≤
        180 * (((mIntervalFallback tf).getD 0 : Nat) : Int) := by
  have hfut : ¬ (dtDays lastDT > dtDays now) := by omega
  have hge : dtDays lastDT ≥ lastTradingDayNum now := hltd
  fin_cases htf <;>
  · simp only [needs_update, hlast, if_neg hfut, if_pos hge, mIntervalFallback,
      Option.getD, if_pos (And.intro hwd hhr)]
    exact freshness_core _ _

/-- Witness for C6's amended statement: an M5 series 300 seconds old on
Wednesday noon is judged fresh. -/
theorem needs_update_intraday_witness :
    needs_update TF.M5
      (some [⟨⟨2025, 1, 8, 11, 55, 0⟩, 1, 1, 1, 1, 0, 0, 0⟩])
      ⟨2025, 1, 8, 12, 0, 0⟩ = false :=
  (needs_update_intraday TF.M5 (by decide)
    [⟨⟨2025, 1, 8, 11, 55, 0⟩, 1, 1, 1, 1, 0, 0, 0⟩]
    ⟨2025, 1, 8, 11, 55, 0⟩ ⟨2025, 1, 8, 12, 0, 0⟩ rfl (by decide) (by decide)
    (by decide) (by decide)).mpr (by decide)

theorem receiveAux_none_timeout (start : Rat) (clock : Nat → Rat) :
    ∀ fuel i : Nat,
      receiveAux none start clock (fun _ => PollOutcome.empty) fuel i = none := by
  intro fuel
  induction fuel with
  | zero => intro i; rfl
  | succ n ih =>
    intro i
    simp only [receiveAux, timedOut, Bool.false_eq_true, if_false]
    exact ih (i + 1)

/-- C7 counterexample: `receive` called with the default `timeout = None` and
no incoming message loops for ever (no finite number of iterations makes it
return), so the bounded-wait property does not hold for every way `receive`
can be called. -/
theorem receive_unbounded_counterexample : ¬ receiveBoundedClaim := by
  intro h
  obtain ⟨fuel, hf⟩ := h none (fun i => (i : Rat) * (1 / 10))
    (fun _ => PollOutcome.empty)
    (by
      intro i
      show (i : Rat) * (1 / 10) + 1 / 10 ≤ ((i + 1 : Nat) : Rat) * (1 / 10)
      push_cast
      linarith)
  apply hf
  simp only [receive, Bool.true_eq_false, if_false]
  exact receiveAux_none_timeout _ _ fuel 0

/-- C7 amended: with a supplied (non-`None`) timeout `T ≥ 0` and a clock that
advances by at least the sleep delay `δ > 0` per loop iteration, `receive`
returns within `⌈T/δ⌉ + 2` iterations whatever mix of empty polls, transient
`EAGAIN` errors and critical receive errors occurs — `None` as an ordinary
value when no message arrives — so its wait is bounded by `T` plus the
duration of one final iteration, where an iteration lasts at most the poll
timeout plus the sleep delay plus, on a critical receive error, the
synchronous PULL-channel reconnection with its up-to `max_retries - 1` retry
delays; and it returns within the very first iteration when a message is
already queued.  With `timeout = None` (the default) the loop has no timeout
exit at all. -/
theorem receive_bounded_with_timeout (T δ : Rat) (clock : Nat → Rat)
    (pollRes : Nat → PollOutcome) (hT : 0 ≤ T) (hδ : 0 < δ)
    (hadv : ∀ i, clock i + δ ≤ clock (i + 1)) :
    ((∀ i, pollRes i = PollOutcome.empty ∨ pollRes i = PollOutcome.eagain ∨
        pollRes i = PollOutcome.fatal) →
      receive true (some T) clock pollRes (⌈T / δ⌉₊ + 2) = some none)
    ∧ (∀ m, pollRes 0 = PollOutcome.msg m →
      receive true (some T) clock pollRes 1 = some (some m)) := by
  have hclock : ∀ k : Nat, clock 0 + k * δ ≤ clock k := by
    intro k
    induction k with
    | zero => simp
    | succ n ih =>
      have h2 := hadv n
      have h3 : ((n + 1 : Nat) : Rat) = (n : Rat) + 1 := by push_cast; ring
      rw [h3]
      nlinarith
  have hexit : ∀ m : Nat, ∀ i fuel : Nat, m < fuel →
      (∀ j, pollRes j = PollOutcome.empty ∨ pollRes j = PollOutcome.eagain ∨
        pollRes j = PollOutcome.fatal) →
      T < clock (i + m) - clock 0 →
      receiveAux (some T) (clock 0) clock pollRes fuel i = some none := by
    intro m
    induction m with
    | zero =>
      intro i fuel hf hmsg hT2
      cases fuel with
      | zero => omega
      | succ f2 =>
        have hgt : clock i - clock 0 > T := by simpa using hT2
        simp [receiveAux, timedOut, hgt]
    | succ n ihm =>
      intro i fuel hf hmsg hT2
      cases fuel with
      | zero => omega
      | succ f2 =>
        by_cases hto : clock i - clock 0 > T
        · simp [receiveAux, timedOut, hto]
        · rcases hmsg i with hpi | hpi | hpi
          · simp only [receiveAux, timedOut, decide_eq_true_eq, if_neg hto, hpi]
            exact ihm (i + 1) f2 (by omega) hmsg
              (by rw [show i + 1 + n = i + (n + 1) from by omega]; exact hT2)
          · simp only [receiveAux, timedOut, decide_eq_true_eq, if_neg hto, hpi]
            exact ihm (i + 1) f2 (by omega) hmsg
              (by rw [show i + 1 + n = i + (n + 1) from by omega]; exact hT2)
          · simp [receiveAux, timedOut, hto, hpi]
  constructor
  · intro hmsg
    simp only [receive, Bool.true_eq_false, if_false]
    apply hexit (⌈T / δ⌉₊ + 1) 0 (⌈T / δ⌉₊ + 2) (by omega) hmsg
    have h1 := hclock (⌈T / δ⌉₊ + 1)
    have h2 : T < ((⌈T / δ⌉₊ + 1 : Nat) : Rat) * δ := by
      have hle : T / δ ≤ ((⌈T / δ⌉₊ : Nat) : Rat) := Nat.le_ceil _
      have h4 : ((⌈T / δ⌉₊ + 1 : Nat) : Rat) = ((⌈T / δ⌉₊ : Nat) : Rat) + 1 := by
        push_cast; ring
      rw [h4]
      have h5 : T = (T / δ) * δ := by field_simp
      nlinarith
    simp only [Nat.zero_add]
    linarith
  · intro m hm
    have hto : ¬ (clock 0 - clock 0 > T) := by
      simp only [sub_self, gt_iff_lt]
      exact not_lt.mpr hT
    simp only [receive, Bool.true_eq_false, if_false]
    simp [receiveAux, timedOut, hto, hm, hT]

/-- Witness for C7's amended statement: timeout 1 s, 1 s clock steps, no
message — returns `None` within the fuel bound; and an already-queued message
is returned in the first iteration. -/
theorem receive_bounded_witness :
    receive true (some 1) (fun i => (i : Rat)) (fun _ => PollOutcome.empty)
      (⌈(1 : Rat) / 1⌉₊ + 2) = some none
    ∧ receive true (some 1) (fun i => (i : Rat)) (fun _ => PollOutcome.msg 7) 1 =
        some (some 7) := by
  have h1 := receive_bounded_with_timeout 1 1 (fun i => (i : Rat))
    (fun _ => PollOutcome.empty) (by norm_num) (by norm_num)
    (by intro i; push_cast; linarith)
  have h2 := receive_bounded_with_timeout 1 1 (fun i => (i : Rat))
    (fun _ => PollOutcome.msg 7) (by norm_num) (by norm_num)
    (by intro i; push_cast; linarith)
  exact ⟨h1.1 (fun i => Or.inl rfl), h2.2 7 rfl⟩

theorem reconnectLoop_sleeps_le (recOK : Nat → Bool) (maxR : Nat) :
    ∀ n retry j : Nat, maxR - retry ≤ n →
      (reconnectLoop recOK maxR retry j).2 ≤ maxR - retry - 1 := by
  intro n
  induction n with
  | zero =>
    intro retry j h
    have h2 : ¬ retry < maxR := by omega
    unfold reconnectLoop
    rw [dif_neg h2]
    simp
  | succ n ih =>
    intro retry j h
    by_cases hr : retry < maxR
    · unfold reconnectLoop
      rw [dif_pos hr]
      by_cases hok : recOK j = true
      · simp [hok]
      · simp only [hok, Bool.false_eq_true, if_false]
        have h3 := ih (retry + 1) (j + 1) (by omega)
        show (reconnectLoop recOK maxR (retry + 1) (j + 1)).2 +
            (if retry + 1 < maxR then 1 else 0) ≤ maxR - retry - 1
        by_cases h4 : retry + 1 < maxR
        · rw [if_pos h4]
          omega
        · rw [if_neg h4]
          omega
    · unfold reconnectLoop
      rw [dif_neg hr]
      simp

theorem sendLoop_sleeps_le (outcomes : Nat → SendOutcome) (recOK : Nat → Bool)
    (maxR : Nat) :
    ∀ n retry k : Nat, maxR + 1 - retry ≤ n →
      (sendLoop outcomes recOK maxR retry k).2.2 ≤ (maxR + 1 - retry) + (maxR - 1) := by
  intro n
  induction n with
  | zero =>
    intro retry k h
    have h2 : ¬ retry ≤ maxR := by omega
    unfold sendLoop
    rw [dif_neg h2]
    simp
  | succ n ih =>
    intro retry k h
    by_cases hr : retry ≤ maxR
    · unfold sendLoop
      rw [dif_pos hr]
      cases outcomes k with
      | ok => simp
      | fatal =>
        have h3 := reconnectLoop_sleeps_le recOK maxR maxR 0 0 (by omega)
        show (reconnectLoop recOK maxR 0 0).2 ≤ (maxR + 1 - retry) + (maxR - 1)
        omega
      | eagain =>
        have h3 := ih (retry + 1) (k + 1) (by omega)
        show (sendLoop outcomes recOK maxR (retry + 1) (k + 1)).2.2 + 1 ≤
          (maxR + 1 - retry) + (maxR - 1)
        omega
    · unfold sendLoop
      rw [dif_neg hr]
      simp

/-- C8 counterexample: with `max_retries = 0` and every attempt failing with
the transient error, `send` still sleeps once — the retry delay happens even
after the final attempt — so the number of retry delays is not bounded by
`max_retries` and the blocking time exceeds `max_retries × retry_delay`. -/
theorem send_delay_counterexample : ¬ sendDelayBoundClaim := by
  intro h
  have h2 := h (fun _ => SendOutcome.eagain) (fun _ => true) 0
  have e1 : sendLoop (fun _ => SendOutcome.eagain) (fun _ => true) 0 1 1 =
      (false, 0, 0) := by
    unfold sendLoop
    rw [dif_neg (by omega : ¬ (1 : Nat) ≤ 0)]
  have e0 : (sendLoop (fun _ => SendOutcome.eagain) (fun _ => true) 0 0 0).2.2 = 1 := by
    unfold sendLoop
    rw [dif_pos (le_refl 0)]
    show ((sendLoop (fun _ => SendOutcome.eagain) (fun _ => true) 0 1 1).1,
      (sendLoop (fun _ => SendOutcome.eagain) (fun _ => true) 0 1 1).2.1 + 1,
      (sendLoop (fun _ => SendOutcome.eagain) (fun _ => true) 0 1 1).2.2 + 1).2.2 = 1
    rw [e1]
  have hsend : (send true true (fun _ => SendOutcome.eagain) (fun _ => true) 0).2.2 = 1 := by
    simp only [send, Bool.true_eq_false, if_false]
    exact e0
  rw [hsend] at h2
  omega

/-- C8 amended: `send` returns false with zero transmission attempts and zero
delays whenever the command channel is unhealthy; otherwise it performs at
most `max_retries + 1` retry delays in the transient-retry loop (one more
than the claim's bound, because the loop sleeps after the final transient
failure before re-testing the loop condition) plus at most `max_retries - 1`
further retry delays inside the synchronous channel reconnection that a
critical transport error triggers, so it never blocks longer than
`((max_retries + 1) + (max_retries - 1)) × retry_delay`. -/
theorem send_bounded (connected active : Bool) (outcomes : Nat → SendOutcome)
    (recOK : Nat → Bool) (maxR : Nat) :
    (connected = false → send connected active outcomes recOK maxR = (false, 0, 0))
    ∧ (send connected active outcomes recOK maxR).2.2 ≤ (maxR + 1) + (maxR - 1) := by
  constructor
  · intro hc
    simp [send, hc]
  · cases connected with
    | false => simp [send]
    | true =>
      cases active with
      | false => simp [send]
      | true =>
        simp only [send, Bool.true_eq_false, if_false]
        have h := sendLoop_sleeps_le outcomes recOK maxR (maxR + 1) 0 0 (by omega)
        omega

/-- Witness for C8's amended statement at the unhealthy channel and a concrete
retry budget. -/
theorem send_bounded_witness :
    send false true (fun _ => SendOutcome.ok) (fun _ => true) 3 = (false, 0, 0)
    ∧ (send false true (fun _ => SendOutcome.ok) (fun _ => true) 3).2.2 ≤
        (3 + 1) + (3 - 1) :=
  ⟨(send_bounded false true (fun _ => SendOutcome.ok) (fun _ => true) 3).1 rfl,
   (send_bounded false true (fun _ => SendOutcome.ok) (fun _ => true) 3).2⟩

/-- C9: anomaly detection takes as baseline the mean close of the rows inside
the trailing 72-hour window before the series' last timestamp, and flags
exactly those rows older than the window whose close deviates from that
baseline by more than the 50-percent threshold. -/
theorem analyze_file_flags (rows out : List Candle) (lastDT : DateTime)
    (hlast : lastTimestamp (sortRows rows) = some lastDT)
    (hout : analyze_file rows = some out) (r : Candle) :
    r ∈ out ↔
      r ∈ sortRows rows ∧ (key r : Int) < (dtSecs lastDT : Int) - 259200 ∧
        |(r.close - meanClose ((sortRows rows).filter
            fun x => (key x : Int) ≥ (dtSecs lastDT : Int) - 259200)) /
          meanClose ((sortRows rows).filter
            fun x => (key x : Int) ≥ (dtSecs lastDT : Int) - 259200) * 100| > 50 := by
  simp only [analyze_file, hlast] at hout
  by_cases hlv : ((sortRows rows).filter
      fun x => decide ((key x : Int) ≥ (dtSecs lastDT : Int) - 259200)) = []
  · rw [if_pos hlv] at hout
    exact absurd hout (by simp)
  · rw [if_neg hlv] at hout
    injection hout with h2
    subst h2
    simp only [List.mem_filter, decide_eq_true_eq]
    exact and_assoc

/-- Witness for C9: window baseline 100, an older row with close 200 is
flagged, an older row with close 105 is not. -/
theorem analyze_file_flags_witness :
    analyze_file
      [⟨⟨2024, 1, 1, 0, 0, 0⟩, 200, 200, 200, 200, 0, 0, 0⟩,
       ⟨⟨2024, 1, 2, 0, 0, 0⟩, 105, 105, 105, 105, 0, 0, 0⟩,
       ⟨⟨2024, 6, 28, 0, 0, 0⟩, 100, 100, 100, 100, 0, 0, 0⟩] =
      some [⟨⟨2024, 1, 1, 0, 0, 0⟩, 200, 200, 200, 200, 0, 0, 0⟩]
    ∧ (⟨⟨2024, 1, 1, 0, 0, 0⟩, 200, 200, 200, 200, 0, 0, 0⟩ : Candle) ∈
        [(⟨⟨2024, 1, 1, 0, 0, 0⟩, 200, 200, 200, 200, 0, 0, 0⟩ : Candle)]
    ∧ (⟨⟨2024, 1, 2, 0, 0, 0⟩, 105, 105, 105, 105, 0, 0, 0⟩ : Candle) ∉
        [(⟨⟨2024, 1, 1, 0, 0, 0⟩, 200, 200, 200, 200, 0, 0, 0⟩ : Candle)] := by
  have hout : analyze_file
      [⟨⟨2024, 1, 1, 0, 0, 0⟩, 200, 200, 200, 200, 0, 0, 0⟩,
       ⟨⟨2024, 1, 2, 0, 0, 0⟩, 105, 105, 105, 105, 0, 0, 0⟩,
       ⟨⟨2024, 6, 28, 0, 0, 0⟩, 100, 100, 100, 100, 0, 0, 0⟩] =
      some [⟨⟨2024, 1, 1, 0, 0, 0⟩, 200, 200, 200, 200, 0, 0, 0⟩] := by
    norm_num [analyze_file, lastTimestamp, sortRows, List.insertionSort,
      List.orderedInsert, meanClose, key, dtSecs, dtDays, daysFromCivil,
      daysBeforeMonth, isLeap, List.filter]
  refine ⟨hout, ?_, ?_⟩
  · exact (analyze_file_flags _ _ ⟨2024, 6, 28, 0, 0, 0⟩ (by decide) hout _).mpr
      (by
        refine ⟨by decide, by decide, ?_⟩
        norm_num [meanClose, sortRows, List.insertionSort, List.orderedInsert,
          key, dtSecs, dtDays, daysFromCivil, daysBeforeMonth, isLeap,
          List.filter])
  · intro hB
    have h3 := (analyze_file_flags _ _ ⟨2024, 6, 28, 0, 0, 0⟩ (by decide) hout _).mp hB
    have h4 := h3.2.2
    rw [show meanClose ((sortRows
        [⟨⟨2024, 1, 1, 0, 0, 0⟩, 200, 200, 200, 200, 0, 0, 0⟩,
         ⟨⟨2024, 1, 2, 0, 0, 0⟩, 105, 105, 105, 105, 0, 0, 0⟩,
         ⟨⟨2024, 6, 28, 0, 0, 0⟩, 100, 100, 100, 100, 0, 0, 0⟩]).filter
        fun x => (key x : Int) ≥ (dtSecs ⟨2024, 6, 28, 0, 0, 0⟩ : Int) - 259200) =
        100 from by
      norm_num [meanClose, sortRows, List.insertionSort, List.orderedInsert,
        key, dtSecs, dtDays, daysFromCivil, daysBeforeMonth, isLeap,
        List.filter]] at h4
    norm_num at h4

/-- C1 counterexample: a payload that passed timeframe validation can still be
rejected inside `save_data` by the `verify_new_data` consistency gate — here
the new first close 300 is 200 percent away from the persisted last close 100
— and then the file is left unchanged instead of becoming the claimed union
of old and new rows. -/
theorem save_data_merge_counterexample :
    (save_data TF.M5 (some [⟨⟨2024, 1, 1, 0, 0, 0⟩, 100, 100, 100, 100, 0, 0, 0⟩])
        [⟨some ⟨2024, 1, 1, 0, 5, 0⟩, 300, 300, 300, 300, 0, 0, 0⟩]).1 = false
    ∧ (save_data TF.M5 (some [⟨⟨2024, 1, 1, 0, 0, 0⟩, 100, 100, 100, 100, 0, 0, 0⟩])
        [⟨some ⟨2024, 1, 1, 0, 5, 0⟩, 300, 300, 300, 300, 0, 0, 0⟩]).2 =
      some [⟨⟨2024, 1, 1, 0, 0, 0⟩, 100, 100, 100, 100, 0, 0, 0⟩]
    ∧ some [⟨⟨2024, 1, 1, 0, 0, 0⟩, 100, 100, 100, 100, 0, 0, 0⟩] ≠
        some (mergeRows [⟨⟨2024, 1, 1, 0, 0, 0⟩, 100, 100, 100, 100, 0, 0, 0⟩]
          (parseRows [⟨some ⟨2024, 1, 1, 0, 5, 0⟩, 300, 300, 300, 300, 0, 0, 0⟩])) := by
  have hpr : parseRows [⟨some ⟨2024, 1, 1, 0, 5, 0⟩, 300, 300, 300, 300, 0, 0, 0⟩] =
      [⟨⟨2024, 1, 1, 0, 5, 0⟩, 300, 300, 300, 300, 0, 0, 0⟩] := rfl
  have hsr : sortRows [⟨⟨2024, 1, 1, 0, 0, 0⟩, 100, 100, 100, 100, 0, 0, 0⟩] =
      [⟨⟨2024, 1, 1, 0, 0, 0⟩, 100, 100, 100, 100, 0, 0, 0⟩] := rfl
  have hv : verify_new_data TF.M5 [⟨⟨2024, 1, 1, 0, 5, 0⟩, 300, 300, 300, 300, 0, 0, 0⟩]
      [⟨⟨2024, 1, 1, 0, 0, 0⟩, 100, 100, 100, 100, 0, 0, 0⟩] = false := by
    norm_num [verify_new_data, verifyInterval, List.getLast?, key, dtSecs,
      dtDays, daysFromCivil, daysBeforeMonth, isLeap]
  have hro : spreadReadOK [⟨⟨2024, 1, 1, 0, 0, 0⟩, 100, 100, 100, 100, 0, 0, 0⟩] = true := by
    decide
  have h1 : save_data TF.M5
      (some [⟨⟨2024, 1, 1, 0, 0, 0⟩, 100, 100, 100, 100, 0, 0, 0⟩])
      [⟨some ⟨2024, 1, 1, 0, 5, 0⟩, 300, 300, 300, 300, 0, 0, 0⟩] =
      (false, some [⟨⟨2024, 1, 1, 0, 0, 0⟩, 100, 100, 100, 100, 0, 0, 0⟩]) := by
    simp [save_data, hpr, hsr, hro, hv]
  refine ⟨by rw [h1], by rw [h1], by decide⟩
